import Mathlib

/-!
Shallow embedding of the Ricart-Agarwala distributed-file-system simulation.

The program is a single-process Go simulation: each client opens a shared
file, writes, reads and closes it while a request ledger, a logical clock
and an acknowledgment gate coordinate admission.  The embedding below
translates the full source version (the one carrying timestamps, the audit
log and the deferred-operation array); the earlier near-duplicate agrees
with it on every function it contains except for the bounds check in
SendRequest and the Timestamp machinery.

Modelling conventions:
* Go `*File` pointers are modelled by the registry key (the file name); the
  `Files` association list plays the role of the heap, so mutation through a
  handle is an update of the entry stored under that name.
* Mutexes are dropped: the ledger-wide `RequestMutex` serializes every
  Read/Write call end to end, so the calls are embedded as sequential state
  transformers.  The asynchronous `go fs.SendRequest(...)` spawns are
  fire-and-forget tasks whose completion is never awaited; they are recorded
  in the ghost field `SentLog` (the multiset of spawned notify targets, in
  spawn order).  The synchronous `ReceiveAcknowledge` polls are applied to
  the state, and the ghost field `PollCount` counts them.
* The storage collaborator (`ioutil.ReadFile` / `ioutil.WriteFile`) is an
  oracle: `disk : String → Option String` for loads, a `saveOk : Bool`
  outcome per save.
* A Go runtime panic (negative slice index) is modelled as `Option.none`.
-/

namespace RA

/-- The Go `File` struct: name, open flag, in-memory content (the mutex is
dropped, see the header comment). -/
structure File where
  Name : String
  IsOpen : Bool
  Content : String
deriving DecidableEq, Repr

/-- The Go `Request` struct: client id, target file (the `*File` pointer is
modelled by the registry key) and the logical timestamp at submission. -/
structure Request where
  ClientID : Int
  FileName : String
  Timestamp : Nat
deriving DecidableEq, Repr

/-- One line of the audit log (`LogRequest` formats it as
"Client id action file name at timestamp ts"; only the fields matter
here). -/
structure AuditEntry where
  clientID : Int
  action : String
  fileName : String
  timestamp : Nat
deriving DecidableEq, Repr

/-- The Go `DistributedFileSystem` struct, plus the two ghost fields
`SentLog` and `PollCount` recording the spawned notify tasks and the number
of `ReceiveAcknowledge` invocations. -/
structure DistributedFileSystem where
  Files : List (String × File)
  Requests : List Request
  Acknowledged : List Bool
  Timestamps : List Nat
  LogFile : List AuditEntry
  DeferredArray : List String
  SentLog : List Int
  PollCount : Nat
deriving DecidableEq, Repr

/-- The Go statement `file.Content = content` (performed under the handle's
lock). -/
def setContent (content : String) (f : File) : File :=
  { f with Content := content }

/-- The Go statements `file.IsOpen = true` / `file.IsOpen = false`
(performed under the handle's lock). -/
def setOpen (b : Bool) (f : File) : File :=
  { f with IsOpen := b }

/-- Gate mutation of Go `SendRequest(clientID, request)`: under the
acknowledge mutex, `if request.ClientID < len(fs.Acknowledged)` the slot is
set, otherwise an "Invalid client ID" line is printed and nothing changes.
The Go guard does not exclude negative ids, and a negative slice index
panics at runtime: that panic is modelled as `none`. -/
def SendRequest (peerId : Int) (ack : List Bool) : Option (List Bool) :=
  if peerId < (ack.length : Int) then
    if 0 ≤ peerId then some (ack.set peerId.toNat true) else none
  else
    some ack

/-- The loop of Go `ReceiveAcknowledge`: scan every slot, return early when
one is false. -/
def allSlotsTrue (ack : List Bool) : Bool :=
  ack.all (fun b => b)

/-- Go `ReceiveAcknowledge` on the gate array: if some slot is false it
returns leaving the array unchanged; if every slot is true it reallocates
the array to `make([]bool, len(fs.Requests))`.  The Go function is `void`
and signals the reset branch only by printing "All acknowledgments
received"; the boolean component records which branch ran. -/
def ReceiveAcknowledge (ack : List Bool) (requestsLen : Nat) : Bool × List Bool :=
  if allSlotsTrue ack then (true, List.replicate requestsLen false)
  else (false, ack)

/-- Go `ReceiveAcknowledge` at the level of the whole system state: it reads
`fs.Acknowledged` and `len(fs.Requests)` and writes back only
`fs.Acknowledged`. -/
def ReceiveAcknowledgeFS (fs : DistributedFileSystem) : Bool × DistributedFileSystem :=
  let r := ReceiveAcknowledge fs.Acknowledged fs.Requests.length
  (r.1, { fs with Acknowledged := r.2 })

/-- The poll loop of `ReadFile`/`WriteFile`: one `ReceiveAcknowledge` call
per ledger entry whose client id differs from the caller's (the list `l` is
that filtered list; only its length matters to the loop). -/
def pollAll (l : List Request) (fs : DistributedFileSystem) : DistributedFileSystem :=
  l.foldl (fun t _ => (ReceiveAcknowledgeFS t).2) fs

/-- Go `LogRequest`: append one formatted line to the audit log. -/
def LogRequest (clientID : Int) (action : String) (fileName : String) (timestamp : Nat)
    (fs : DistributedFileSystem) : DistributedFileSystem :=
  { fs with LogFile := fs.LogFile ++ [⟨clientID, action, fileName, timestamp⟩] }

/-- Go `AddDeferredOperation`: append one label to the deferred array. -/
def AddDeferredOperation (operation : String) (fs : DistributedFileSystem) :
    DistributedFileSystem :=
  { fs with DeferredArray := fs.DeferredArray ++ [operation] }

/-- Go `ReadFile`: under the ledger lock, allocate the next timestamp
(`len(fs.Timestamps) + 1`, appended to `fs.Timestamps`), append the request,
spawn one `SendRequest` goroutine per differing ledger entry (recorded in
`SentLog`), call `ReceiveAcknowledge` once per differing ledger entry, then
log and record the deferred label.  Reading prints the content and mutates
no file. -/
def ReadFile (clientID : Int) (file : String) (fs : DistributedFileSystem) :
    DistributedFileSystem :=
  let timestamp := fs.Timestamps.length + 1
  let fs1 : DistributedFileSystem :=
    { fs with
        Timestamps := fs.Timestamps ++ [timestamp]
        Requests := fs.Requests ++ [⟨clientID, file, timestamp⟩] }
  let others := fs1.Requests.filter (fun r => r.ClientID != clientID)
  let fs2 : DistributedFileSystem := { fs1 with SentLog := fs1.SentLog ++ others.map Request.ClientID }
  let fs3 := pollAll others fs2
  let fs4 : DistributedFileSystem := { fs3 with PollCount := fs3.PollCount + others.length }
  AddDeferredOperation ("Read by Client " ++ toString clientID)
    (LogRequest clientID "Read" file timestamp fs4)

/-- Go `WriteFile`: same admission sequence as `ReadFile`, then the handle's
content is replaced under its own lock, then the save to storage runs; on
save failure the function returns before logging, so the audit line and the
deferred label are appended only when `saveOk` is true. -/
def WriteFile (clientID : Int) (file : String) (content : String) (saveOk : Bool)
    (fs : DistributedFileSystem) : DistributedFileSystem :=
  let timestamp := fs.Timestamps.length + 1
  let fs1 : DistributedFileSystem :=
    { fs with
        Timestamps := fs.Timestamps ++ [timestamp]
        Requests := fs.Requests ++ [⟨clientID, file, timestamp⟩] }
  let others := fs1.Requests.filter (fun r => r.ClientID != clientID)
  let fs2 : DistributedFileSystem := { fs1 with SentLog := fs1.SentLog ++ others.map Request.ClientID }
  let fs3 := pollAll others fs2
  let fs4 : DistributedFileSystem := { fs3 with PollCount := fs3.PollCount + others.length }
  let fs5 : DistributedFileSystem :=
    { fs4 with
        Files := fs4.Files.map (fun p =>
          if p.1 = file then (p.1, setContent content p.2) else p) }
  if saveOk then
    AddDeferredOperation ("Write by Client " ++ toString clientID)
      (LogRequest clientID "Write" file timestamp fs5)
  else fs5

/-- Go `OpenFile`: under the registry lock, look the name up; when absent,
load from storage (failure returns `nil` and leaves everything untouched),
otherwise insert a fresh open handle; when present, set the existing
handle's open flag under its own lock and return it. -/
def OpenFile (clientID : Int) (fileName : String) (disk : String → Option String)
    (fs : DistributedFileSystem) : Option File × DistributedFileSystem :=
  match fs.Files.lookup fileName with
  | some file =>
      let file1 : File := setOpen true file
      (some file1,
        { fs with Files := fs.Files.map (fun p =>
            if p.1 = fileName then (p.1, file1) else p) })
  | none =>
      match disk fileName with
      | none => (none, fs)
      | some content =>
          let file : File := ⟨fileName, true, content⟩
          (some file, { fs with Files := fs.Files ++ [(fileName, file)] })

/-- Go `CloseFile`: clear the open flag under the handle's lock. -/
def CloseFile (file : String) (fs : DistributedFileSystem) : DistributedFileSystem :=
  { fs with Files := fs.Files.map (fun p =>
      if p.1 = file then (p.1, setOpen false p.2) else p) }

/-- One admitted coordinator call: a Read, or a Write whose save outcome is
`saveOk`. -/
inductive Op where
  | read (clientID : Int) (file : String)
  | write (clientID : Int) (file : String) (content : String) (saveOk : Bool)
deriving DecidableEq, Repr

/-- Apply one coordinator call to the state. -/
def applyOp (fs : DistributedFileSystem) : Op → DistributedFileSystem
  | Op.read c f => ReadFile c f fs
  | Op.write c f content ok => WriteFile c f content ok fs

/-- Run a serialized sequence of coordinator calls (the ledger lock fully
serializes them in the program). -/
def runOps (fs : DistributedFileSystem) (ops : List Op) : DistributedFileSystem :=
  ops.foldl applyOp fs

/-- Whether a call completes its full admission and mutation sequence
without failure: a Read always does, a Write does exactly when its save
succeeds. -/
def opCompletes : Op → Bool
  | Op.read _ _ => true
  | Op.write _ _ _ ok => ok

/-- The body of one client goroutine in `main`: open, and only when a handle
came back, write then read then close. -/
def clientTask (clientID : Int) (fileName : String) (content : String)
    (disk : String → Option String) (saveOk : Bool)
    (fs : DistributedFileSystem) : DistributedFileSystem :=
  match OpenFile clientID fileName disk fs with
  | (none, fs1) => fs1
  | (some file, fs1) =>
      CloseFile file.Name (ReadFile clientID file.Name (WriteFile clientID file.Name content saveOk fs1))

/-! ### Helper lemmas about the poll loop and the registry update pattern -/

lemma pollAll_cons (a : Request) (t : List Request) (fs : DistributedFileSystem) :
    pollAll (a :: t) fs = pollAll t ((ReceiveAcknowledgeFS fs).2) := rfl

lemma pollAll_eq (l : List Request) (fs : DistributedFileSystem) :
    pollAll l fs = { fs with Acknowledged := (pollAll l fs).Acknowledged } := by
  induction l generalizing fs with
  | nil => rfl
  | cons a t ih =>
      rw [pollAll_cons, ih ((ReceiveAcknowledgeFS fs).2)]
      rfl

lemma pollAll_Files (l : List Request) (fs : DistributedFileSystem) :
    (pollAll l fs).Files = fs.Files := by rw [pollAll_eq]

lemma pollAll_Requests (l : List Request) (fs : DistributedFileSystem) :
    (pollAll l fs).Requests = fs.Requests := by rw [pollAll_eq]

lemma pollAll_Timestamps (l : List Request) (fs : DistributedFileSystem) :
    (pollAll l fs).Timestamps = fs.Timestamps := by rw [pollAll_eq]

lemma pollAll_LogFile (l : List Request) (fs : DistributedFileSystem) :
    (pollAll l fs).LogFile = fs.LogFile := by rw [pollAll_eq]

lemma pollAll_DeferredArray (l : List Request) (fs : DistributedFileSystem) :
    (pollAll l fs).DeferredArray = fs.DeferredArray := by rw [pollAll_eq]

lemma pollAll_SentLog (l : List Request) (fs : DistributedFileSystem) :
    (pollAll l fs).SentLog = fs.SentLog := by rw [pollAll_eq]

lemma pollAll_PollCount (l : List Request) (fs : DistributedFileSystem) :
    (pollAll l fs).PollCount = fs.PollCount := by rw [pollAll_eq]

lemma lookup_map_update (name : String) (g : File → File) (files : List (String × File)) :
    (files.map (fun p => if p.1 = name then (p.1, g p.2) else p)).lookup name
      = (files.lookup name).map g := by
  induction files with
  | nil => rfl
  | cons p t ih =>
      rcases p with ⟨k, v⟩
      by_cases h : k = name
      · subst h
        simp [List.lookup_cons, ih]
      · have hx : (name == k) = false := beq_eq_false_iff_ne.mpr (fun hc => h hc.symm)
        simp [List.lookup_cons, h, hx, ih]

lemma lookup_map_update_ne (name n : String) (hne : n ≠ name) (g : File → File)
    (files : List (String × File)) :
    (files.map (fun p => if p.1 = name then (p.1, g p.2) else p)).lookup n
      = files.lookup n := by
  induction files with
  | nil => rfl
  | cons p t ih =>
      rcases p with ⟨k, v⟩
      by_cases h : k = name
      · subst h
        have hx := beq_eq_false_iff_ne.mpr hne
        simp [List.lookup_cons, hx, ih]
      · by_cases h2 : n = k
        · subst h2
          simp [List.lookup_cons, h]
        · have hx : (n == k) = false := beq_eq_false_iff_ne.mpr h2
          simp [List.lookup_cons, h, hx, ih]

lemma keys_map_update (name : String) (g : File → File) (files : List (String × File)) :
    (files.map (fun p => if p.1 = name then (p.1, g p.2) else p)).map Prod.fst
      = files.map Prod.fst := by
  induction files with
  | nil => rfl
  | cons p t ih =>
      by_cases h : p.1 = name <;> simp [h, ih]

lemma pollAll_Acknowledged (l : List Request) (s : DistributedFileSystem) :
    (pollAll l s).Acknowledged
      = l.foldl (fun a _ => (ReceiveAcknowledge a s.Requests.length).2) s.Acknowledged := by
  induction l generalizing s with
  | nil => rfl
  | cons a t ih =>
      rw [pollAll_cons, ih ((ReceiveAcknowledgeFS s).2)]
      rfl

/-! ### Field characterizations of `ReadFile` and `WriteFile` -/

lemma ReadFile_Files (c : Int) (f : String) (fs : DistributedFileSystem) :
    (ReadFile c f fs).Files = fs.Files := by
  simp [ReadFile, AddDeferredOperation, LogRequest, pollAll_Files]

lemma ReadFile_Requests (c : Int) (f : String) (fs : DistributedFileSystem) :
    (ReadFile c f fs).Requests = fs.Requests ++ [⟨c, f, fs.Timestamps.length + 1⟩] := by
  simp [ReadFile, AddDeferredOperation, LogRequest, pollAll_Requests]

lemma ReadFile_Timestamps (c : Int) (f : String) (fs : DistributedFileSystem) :
    (ReadFile c f fs).Timestamps = fs.Timestamps ++ [fs.Timestamps.length + 1] := by
  simp [ReadFile, AddDeferredOperation, LogRequest, pollAll_Timestamps]

lemma ReadFile_LogFile (c : Int) (f : String) (fs : DistributedFileSystem) :
    (ReadFile c f fs).LogFile = fs.LogFile ++ [⟨c, "Read", f, fs.Timestamps.length + 1⟩] := by
  simp [ReadFile, AddDeferredOperation, LogRequest, pollAll_LogFile]

lemma ReadFile_DeferredArray (c : Int) (f : String) (fs : DistributedFileSystem) :
    (ReadFile c f fs).DeferredArray = fs.DeferredArray ++ ["Read by Client " ++ toString c] := by
  simp [ReadFile, AddDeferredOperation, LogRequest, pollAll_DeferredArray]

lemma ReadFile_SentLog (c : Int) (f : String) (fs : DistributedFileSystem) :
    (ReadFile c f fs).SentLog = fs.SentLog ++
      ((fs.Requests ++ [(⟨c, f, fs.Timestamps.length + 1⟩ : Request)]).filter
        (fun r => r.ClientID != c)).map Request.ClientID := by
  simp [ReadFile, AddDeferredOperation, LogRequest, pollAll_SentLog]

lemma ReadFile_PollCount (c : Int) (f : String) (fs : DistributedFileSystem) :
    (ReadFile c f fs).PollCount = fs.PollCount +
      ((fs.Requests ++ [(⟨c, f, fs.Timestamps.length + 1⟩ : Request)]).filter
        (fun r => r.ClientID != c)).length := by
  simp [ReadFile, AddDeferredOperation, LogRequest, pollAll_PollCount]

lemma WriteFile_Files (c : Int) (f content : String) (ok : Bool) (fs : DistributedFileSystem) :
    (WriteFile c f content ok fs).Files
      = fs.Files.map (fun p => if p.1 = f then (p.1, setContent content p.2) else p) := by
  cases ok <;> simp [WriteFile, AddDeferredOperation, LogRequest, pollAll_Files]

lemma WriteFile_Requests (c : Int) (f content : String) (ok : Bool) (fs : DistributedFileSystem) :
    (WriteFile c f content ok fs).Requests
      = fs.Requests ++ [⟨c, f, fs.Timestamps.length + 1⟩] := by
  cases ok <;> simp [WriteFile, AddDeferredOperation, LogRequest, pollAll_Requests]

lemma WriteFile_Timestamps (c : Int) (f content : String) (ok : Bool)
    (fs : DistributedFileSystem) :
    (WriteFile c f content ok fs).Timestamps = fs.Timestamps ++ [fs.Timestamps.length + 1] := by
  cases ok <;> simp [WriteFile, AddDeferredOperation, LogRequest, pollAll_Timestamps]

lemma WriteFile_LogFile_ok (c : Int) (f content : String) (fs : DistributedFileSystem) :
    (WriteFile c f content true fs).LogFile
      = fs.LogFile ++ [⟨c, "Write", f, fs.Timestamps.length + 1⟩] := by
  simp [WriteFile, AddDeferredOperation, LogRequest, pollAll_LogFile]

lemma WriteFile_LogFile_fail (c : Int) (f content : String) (fs : DistributedFileSystem) :
    (WriteFile c f content false fs).LogFile = fs.LogFile := by
  simp [WriteFile, AddDeferredOperation, LogRequest, pollAll_LogFile]

lemma WriteFile_DeferredArray_ok (c : Int) (f content : String) (fs : DistributedFileSystem) :
    (WriteFile c f content true fs).DeferredArray
      = fs.DeferredArray ++ ["Write by Client " ++ toString c] := by
  simp [WriteFile, AddDeferredOperation, LogRequest, pollAll_DeferredArray]

lemma WriteFile_DeferredArray_fail (c : Int) (f content : String) (fs : DistributedFileSystem) :
    (WriteFile c f content false fs).DeferredArray = fs.DeferredArray := by
  simp [WriteFile, AddDeferredOperation, LogRequest, pollAll_DeferredArray]

lemma WriteFile_SentLog (c : Int) (f content : String) (ok : Bool) (fs : DistributedFileSystem) :
    (WriteFile c f content ok fs).SentLog = fs.SentLog ++
      ((fs.Requests ++ [(⟨c, f, fs.Timestamps.length + 1⟩ : Request)]).filter
        (fun r => r.ClientID != c)).map Request.ClientID := by
  cases ok <;> simp [WriteFile, AddDeferredOperation, LogRequest, pollAll_SentLog]

lemma WriteFile_PollCount (c : Int) (f content : String) (ok : Bool)
    (fs : DistributedFileSystem) :
    (WriteFile c f content ok fs).PollCount = fs.PollCount +
      ((fs.Requests ++ [(⟨c, f, fs.Timestamps.length + 1⟩ : Request)]).filter
        (fun r => r.ClientID != c)).length := by
  cases ok <;> simp [WriteFile, AddDeferredOperation, LogRequest, pollAll_PollCount]

lemma allSlotsTrue_iff (ack : List Bool) :
    allSlotsTrue ack = true ↔ ∀ i, i < ack.length → ack.getD i false = true := by
  induction ack with
  | nil => simp [allSlotsTrue]
  | cons b t ih =>
      simp only [allSlotsTrue, List.all_cons, Bool.and_eq_true] at ih ⊢
      constructor
      · rintro ⟨hb, ht⟩ i hi
        cases i with
        | zero => simpa using hb
        | succ j =>
            simp only [List.getD_cons_succ]
            exact ih.mp ht j (by simpa using hi)
      · intro h
        refine ⟨by simpa using h 0 (by simp), ih.mpr ?_⟩
        intro j hj
        have := h (j + 1) (by simpa using hj)
        simpa using this

/-! ### Claims -/

/-- Claim C2: `ReceiveAcknowledge` reports all-acknowledged exactly when every
slot of the acknowledgment array at index below its current length is true;
in that case, and only then, it replaces the array with a fresh all-false
array sized to the current ledger (`Requests`) length, and when some slot is
false it reports false and leaves the whole state (array length and contents
included) unchanged. -/
theorem claim2_receiveAcknowledge_gate (fs : DistributedFileSystem) :
    ((ReceiveAcknowledgeFS fs).1 = true ↔
        ∀ i, i < fs.Acknowledged.length → fs.Acknowledged.getD i false = true) ∧
    ((ReceiveAcknowledgeFS fs).1 = true →
        (ReceiveAcknowledgeFS fs).2.Acknowledged = List.replicate fs.Requests.length false) ∧
    ((ReceiveAcknowledgeFS fs).1 = false → (ReceiveAcknowledgeFS fs).2 = fs) := by
  have hfst : (ReceiveAcknowledgeFS fs).1 = allSlotsTrue fs.Acknowledged := by
    cases h : allSlotsTrue fs.Acknowledged <;>
      simp [ReceiveAcknowledgeFS, ReceiveAcknowledge, h]
  refine ⟨?_, ?_, ?_⟩
  · rw [hfst]
    exact allSlotsTrue_iff fs.Acknowledged
  · intro h
    rw [hfst] at h
    simp [ReceiveAcknowledgeFS, ReceiveAcknowledge, h]
  · intro h
    rw [hfst] at h
    simp [ReceiveAcknowledgeFS, ReceiveAcknowledge, h]

/-- Witness for C2 at a concrete state: a fully-true one-slot array with a
two-entry ledger is reset to a fresh two-slot all-false array. -/
theorem claim2_receiveAcknowledge_gate_witness :
    (ReceiveAcknowledgeFS
        ⟨[], [⟨1, "f", 1⟩, ⟨2, "f", 2⟩], [true], [], [], [], [], 0⟩).2.Acknowledged
      = List.replicate 2 false := by
  have h := claim2_receiveAcknowledge_gate
    ⟨[], [⟨1, "f", 1⟩, ⟨2, "f", 2⟩], [true], [], [], [], [], 0⟩
  exact h.2.1 (by decide)

/-- Claim C4 (counterexample): the claim as stated covers every peer id
outside the array's current bounds, but a negative peer id passes the Go
guard `request.ClientID < len(fs.Acknowledged)` and the negative slice index
then panics (modelled as `none`) instead of being reported and ignored. -/
theorem claim4_sendRequest_cex :
    SendRequest (-1) [false] = none ∧ SendRequest (-1) [false] ≠ some [false] := by
  constructor <;> decide

/-- Claim C4 (amended): for every peer id at or above the array's current
length, `SendRequest` reports it and returns normally without altering the
array; for every in-bounds (nonnegative) peer id it sets exactly that slot
to true and changes nothing else; a negative peer id makes the call panic. -/
theorem claim4_sendRequest_bounds (peerId : Int) (ack : List Bool) :
    ((ack.length : Int) ≤ peerId → SendRequest peerId ack = some ack) ∧
    (0 ≤ peerId → peerId < (ack.length : Int) →
        SendRequest peerId ack = some (ack.set peerId.toNat true) ∧
        (ack.set peerId.toNat true).length = ack.length ∧
        (ack.set peerId.toNat true).getD peerId.toNat false = true ∧
        ∀ j, j ≠ peerId.toNat → (ack.set peerId.toNat true).getD j false = ack.getD j false) ∧
    (peerId < 0 → SendRequest peerId ack = none) := by
  refine ⟨?_, ?_, ?_⟩
  · intro h
    simp [SendRequest, not_lt.mpr h]
  · intro h0 hlt
    have hnat : peerId.toNat < ack.length := by omega
    refine ⟨by simp [SendRequest, hlt, h0], by simp, ?_, ?_⟩
    · simp [List.getD_eq_getElem?_getD, List.getElem?_set_self, hnat]
    · intro j hj
      simp [List.getD_eq_getElem?_getD, List.getElem?_set_ne (fun hc => hj hc.symm)]
  · intro hneg
    have hlt : peerId < (ack.length : Int) := by omega
    simp [SendRequest, hlt, not_le.mpr hneg]

/-- Witness for C4 at concrete inputs: peer id 5 is beyond a two-slot array
and is ignored; peer id 1 is in bounds and sets exactly slot 1. -/
theorem claim4_sendRequest_bounds_witness :
    SendRequest 5 [false, false] = some [false, false] ∧
    SendRequest 1 [false, false] = some [false, true] := by
  refine ⟨(claim4_sendRequest_bounds 5 [false, false]).1 (by decide), ?_⟩
  have h := ((claim4_sendRequest_bounds 1 [false, false]).2.1 (by decide) (by decide)).1
  exact h.trans (by decide)

/-- Claim C9 (amended): `ReadFile` never mutates the target handle or the
registry, and appends exactly one element each to the ledger, the timestamp
list, the audit log and the deferred-operation queue; beyond the claim's
wording, the call's acknowledgment-gate polls (and its spawned notify tasks)
may additionally update the acknowledgment array. -/
theorem claim9_read_frame (c : Int) (f : String) (fs : DistributedFileSystem) :
    (ReadFile c f fs).Files = fs.Files ∧
    (ReadFile c f fs).Requests = fs.Requests ++ [⟨c, f, fs.Timestamps.length + 1⟩] ∧
    (ReadFile c f fs).Timestamps = fs.Timestamps ++ [fs.Timestamps.length + 1] ∧
    (ReadFile c f fs).LogFile = fs.LogFile ++ [⟨c, "Read", f, fs.Timestamps.length + 1⟩] ∧
    (ReadFile c f fs).DeferredArray = fs.DeferredArray ++ ["Read by Client " ++ toString c] :=
  ⟨ReadFile_Files c f fs, ReadFile_Requests c f fs, ReadFile_Timestamps c f fs,
   ReadFile_LogFile c f fs, ReadFile_DeferredArray c f fs⟩

/-- Claim C9 (counterexample): the claim says a `ReadFile` call only appends
to the ledger, timestamp list, audit log and deferred queue; but the poll
step can reset the acknowledgment array (here a fully-true one-slot array
becomes a fresh two-slot all-false array), so the call is not limited to
those four appends. -/
theorem claim9_read_cex :
    (ReadFile 1 "file1.txt"
        ⟨[("file1.txt", ⟨"file1.txt", true, "x"⟩)], [⟨2, "file1.txt", 1⟩],
          [true], [1], [], [], [], 0⟩).Acknowledged
      ≠ [true] := by
  decide

/-- Claim C7: every Read and every Write appends exactly one request
carrying the caller's id, the target file and the freshly allocated
timestamp; it then spawns one asynchronous notify task per ledger entry —
historical entries included — whose client id differs from the caller's
(recorded in `SentLog`), and polls the gate exactly once per such entry with
no retry or sleep (`PollCount` grows by exactly the number of differing
entries). -/
theorem claim7_admission_protocol (c : Int) (f content : String) (ok : Bool)
    (fs : DistributedFileSystem) :
    ((ReadFile c f fs).Requests = fs.Requests ++ [⟨c, f, fs.Timestamps.length + 1⟩] ∧
     (ReadFile c f fs).SentLog = fs.SentLog ++
       ((fs.Requests ++ [(⟨c, f, fs.Timestamps.length + 1⟩ : Request)]).filter
         (fun r => r.ClientID != c)).map Request.ClientID ∧
     (ReadFile c f fs).PollCount = fs.PollCount +
       ((fs.Requests ++ [(⟨c, f, fs.Timestamps.length + 1⟩ : Request)]).filter
         (fun r => r.ClientID != c)).length) ∧
    ((WriteFile c f content ok fs).Requests
        = fs.Requests ++ [⟨c, f, fs.Timestamps.length + 1⟩] ∧
     (WriteFile c f content ok fs).SentLog = fs.SentLog ++
       ((fs.Requests ++ [(⟨c, f, fs.Timestamps.length + 1⟩ : Request)]).filter
         (fun r => r.ClientID != c)).map Request.ClientID ∧
     (WriteFile c f content ok fs).PollCount = fs.PollCount +
       ((fs.Requests ++ [(⟨c, f, fs.Timestamps.length + 1⟩ : Request)]).filter
         (fun r => r.ClientID != c)).length) :=
  ⟨⟨ReadFile_Requests c f fs, ReadFile_SentLog c f fs, ReadFile_PollCount c f fs⟩,
   ⟨WriteFile_Requests c f content ok fs, WriteFile_SentLog c f content ok fs,
    WriteFile_PollCount c f content ok fs⟩⟩

lemma writes_foldl_lookup (name : String) (ws : List (Int × String)) :
    ∀ (fs : DistributedFileSystem) (f0 : File), fs.Files.lookup name = some f0 →
      (ws.foldl (fun s cw => WriteFile cw.1 name cw.2 true s) fs).Files.lookup name
        = some (setContent ((ws.map Prod.snd).getLastD f0.Content) f0) := by
  induction ws with
  | nil =>
      intro fs f0 h0
      simpa [setContent] using h0
  | cons w t ih =>
      intro fs f0 h0
      have hstep : (WriteFile w.1 name w.2 true fs).Files.lookup name
          = some (setContent w.2 f0) := by
        rw [WriteFile_Files, lookup_map_update, h0]
        rfl
      rw [List.foldl_cons, ih _ _ hstep, List.map_cons, List.getLastD_cons]
      rfl

lemma getLastD_map_snd (ws : List (Int × String)) (hne : ws ≠ []) (d : String) :
    (ws.map Prod.snd).getLastD d = (ws.getLast hne).2 := by
  have hmap : ws.map Prod.snd ≠ [] := by simpa using hne
  rw [List.getLastD_eq_getLast?, List.getLast?_map,
    List.getLast?_eq_getLast ws hne]
  rfl

/-- Claim C1: for a serialized sequence of Write calls on one file that all
complete without persistence failure, the in-memory content stored under
that handle afterwards equals the content argument of the write admitted
last (last-writer-wins). -/
theorem claim1_last_writer_wins (name : String) (ws : List (Int × String))
    (hne : ws ≠ []) (fs : DistributedFileSystem) (f0 : File)
    (h0 : fs.Files.lookup name = some f0) :
    ((ws.foldl (fun s cw => WriteFile cw.1 name cw.2 true s) fs).Files.lookup name).map
        File.Content = some (ws.getLast hne).2 := by
  rw [writes_foldl_lookup name ws fs f0 h0]
  show some ((ws.map Prod.snd).getLastD f0.Content) = some (ws.getLast hne).2
  rw [getLastD_map_snd ws hne]

/-- Witness for C1: two successful writes "a" then "b" by different clients
leave content "b" under the handle. -/
theorem claim1_last_writer_wins_witness :
    (([((1 : Int), "a"), ((2 : Int), "b")].foldl
        (fun s cw => WriteFile cw.1 "f" cw.2 true s)
        ⟨[("f", ⟨"f", true, "init"⟩)], [], [], [], [], [], [], 0⟩).Files.lookup "f").map
      File.Content = some "b" := by
  have h := claim1_last_writer_wins "f" [((1 : Int), "a"), ((2 : Int), "b")] (by decide)
    ⟨[("f", ⟨"f", true, "init"⟩)], [], [], [], [], [], [], 0⟩ ⟨"f", true, "init"⟩ (by decide)
  exact h.trans (by decide)

lemma applyOp_Timestamps (fs : DistributedFileSystem) (op : Op) :
    (applyOp fs op).Timestamps = fs.Timestamps ++ [fs.Timestamps.length + 1] := by
  cases op with
  | read c f => exact ReadFile_Timestamps c f fs
  | write c f content ok => exact WriteFile_Timestamps c f content ok fs

lemma runOps_Timestamps (ops : List Op) :
    ∀ (fs : DistributedFileSystem) (k : Nat), fs.Timestamps = List.range' 1 k →
      (runOps fs ops).Timestamps = List.range' 1 (k + ops.length) := by
  induction ops with
  | nil =>
      intro fs k h
      simpa [runOps] using h
  | cons op t ih =>
      intro fs k h
      have hstep : (applyOp fs op).Timestamps = List.range' 1 (k + 1) := by
        rw [applyOp_Timestamps, h, List.length_range', List.range'_1_concat]
        simp [Nat.add_comm]
      have := ih (applyOp fs op) (k + 1) hstep
      rw [runOps, List.foldl_cons]
      rw [runOps] at this
      rw [this]
      congr 1
      simp
      omega

/-- Claim C3: starting from the initial empty timestamp list, N admissions
(one per Read or Write) produce exactly the timestamps 1..N in order:
globally unique, strictly increasing, and contiguous. -/
theorem claim3_timestamps (fs : DistributedFileSystem) (h : fs.Timestamps = [])
    (ops : List Op) :
    (runOps fs ops).Timestamps = List.range' 1 ops.length ∧
    (runOps fs ops).Timestamps.Nodup ∧
    List.Pairwise (· < ·) (runOps fs ops).Timestamps ∧
    ∀ t, t ∈ (runOps fs ops).Timestamps ↔ 1 ≤ t ∧ t ≤ ops.length := by
  have hrun : (runOps fs ops).Timestamps = List.range' 1 ops.length := by
    have := runOps_Timestamps ops fs 0 (by simpa using h)
    simpa using this
  refine ⟨hrun, ?_, ?_, ?_⟩
  · rw [hrun]
    exact List.nodup_range' 1 ops.length
  · rw [hrun]
    exact List.pairwise_lt_range' 1 ops.length
  · intro t
    rw [hrun, List.mem_range'_1]
    omega

/-- Witness for C3: two admissions from the initial state yield timestamps
[1, 2]. -/
theorem claim3_timestamps_witness :
    (runOps ⟨[], [], [], [], [], [], [], 0⟩
        [Op.read 1 "f", Op.write 2 "f" "x" true]).Timestamps = [1, 2] := by
  have h := claim3_timestamps ⟨[], [], [], [], [], [], [], 0⟩ rfl
    [Op.read 1 "f", Op.write 2 "f" "x" true]
  exact h.1.trans (by decide)

lemma applyOp_LogFile_length (fs : DistributedFileSystem) (op : Op) :
    (applyOp fs op).LogFile.length
      = fs.LogFile.length + (if opCompletes op then 1 else 0) := by
  cases op with
  | read c f => simp [applyOp, ReadFile_LogFile, opCompletes]
  | write c f content ok =>
      cases ok with
      | true => simp [applyOp, WriteFile_LogFile_ok, opCompletes]
      | false => simp [applyOp, WriteFile_LogFile_fail, opCompletes]

lemma runOps_LogFile_length (ops : List Op) :
    ∀ fs : DistributedFileSystem, (runOps fs ops).LogFile.length
      = fs.LogFile.length + (ops.filter opCompletes).length := by
  induction ops with
  | nil =>
      intro fs
      simp [runOps]
  | cons op t ih =>
      intro fs
      rw [runOps, List.foldl_cons]
      have hrec := ih (applyOp fs op)
      rw [runOps] at hrec
      rw [hrec, applyOp_LogFile_length]
      cases hc : opCompletes op <;> simp [List.filter_cons, hc] <;> omega

/-- Claim C5: when the save at the end of a Write fails, the in-memory
content has already been replaced, and the call aborts before appending an
audit entry or a deferred label; consequently, over any serialized run, the
audit-log length equals exactly the number of Read/Write calls that
completed without failure. -/
theorem claim5_save_failure_audit (c : Int) (f content : String)
    (fs : DistributedFileSystem) :
    (∀ f0, fs.Files.lookup f = some f0 →
        (WriteFile c f content false fs).Files.lookup f
          = some { f0 with Content := content }) ∧
    (WriteFile c f content false fs).LogFile = fs.LogFile ∧
    (WriteFile c f content false fs).DeferredArray = fs.DeferredArray ∧
    (∀ ops : List Op, (runOps fs ops).LogFile.length
        = fs.LogFile.length + (ops.filter opCompletes).length) := by
  refine ⟨?_, WriteFile_LogFile_fail c f content fs,
    WriteFile_DeferredArray_fail c f content fs, fun ops => runOps_LogFile_length ops fs⟩
  intro f0 h0
  rw [WriteFile_Files, lookup_map_update, h0]
  rfl

/-- Witness for C5: a failing write updates the in-memory content and logs
nothing; a run with one successful and one failing write logs exactly one
entry. -/
theorem claim5_save_failure_audit_witness :
    (WriteFile 1 "f" "new" false
        ⟨[("f", ⟨"f", true, "old"⟩)], [], [], [], [], [], [], 0⟩).Files.lookup "f"
      = some ⟨"f", true, "new"⟩ ∧
    (WriteFile 1 "f" "new" false
        ⟨[("f", ⟨"f", true, "old"⟩)], [], [], [], [], [], [], 0⟩).LogFile = [] ∧
    (runOps ⟨[("f", ⟨"f", true, "old"⟩)], [], [], [], [], [], [], 0⟩
        [Op.write 1 "f" "a" true, Op.write 2 "f" "b" false]).LogFile.length = 1 := by
  have h := claim5_save_failure_audit 1 "f" "new"
    ⟨[("f", ⟨"f", true, "old"⟩)], [], [], [], [], [], [], 0⟩
  refine ⟨?_, h.2.1, ?_⟩
  · exact (h.1 ⟨"f", true, "old"⟩ (by decide)).trans (by decide)
  · exact (h.2.2.2 [Op.write 1 "f" "a" true, Op.write 2 "f" "b" false]).trans (by decide)

/-- Claim C6: when the storage load on first Open of a name fails, Open
returns no handle and creates no partial state, and the whole client task
(open, then write/read/close only under a returned handle) leaves the state
untouched, so that client contributes zero audit lines and zero deferred
labels. -/
theorem claim6_open_load_failure (c : Int) (name content : String) (saveOk : Bool)
    (disk : String → Option String) (fs : DistributedFileSystem)
    (habs : fs.Files.lookup name = none) (hload : disk name = none) :
    OpenFile c name disk fs = (none, fs) ∧
    clientTask c name content disk saveOk fs = fs ∧
    (clientTask c name content disk saveOk fs).LogFile = fs.LogFile ∧
    (clientTask c name content disk saveOk fs).DeferredArray = fs.DeferredArray := by
  have hopen : OpenFile c name disk fs = (none, fs) := by
    simp [OpenFile, habs, hload]
  have htask : clientTask c name content disk saveOk fs = fs := by
    simp [clientTask, hopen]
  exact ⟨hopen, htask, by rw [htask], by rw [htask]⟩

/-- Witness for C6: a storage that can load nothing makes the whole client
task a no-op on the empty initial state. -/
theorem claim6_open_load_failure_witness :
    clientTask 1 "file1.txt" "x" (fun _ => none) true ⟨[], [], [], [], [], [], [], 0⟩
      = ⟨[], [], [], [], [], [], [], 0⟩ :=
  (claim6_open_load_failure 1 "file1.txt" "x" true (fun _ => none)
    ⟨[], [], [], [], [], [], [], 0⟩ rfl rfl).2.1

lemma lookup_map_const (name : String) (v : File) (files : List (String × File)) :
    (files.map (fun p => if p.1 = name then (p.1, v) else p)).lookup name
      = (files.lookup name).map (fun _ => v) := by
  induction files with
  | nil => rfl
  | cons p t ih =>
      rcases p with ⟨k, w⟩
      by_cases h : k = name
      · subst h
        simp [List.lookup_cons, ih]
      · have hx : (name == k) = false := beq_eq_false_iff_ne.mpr (fun hc => h hc.symm)
        simp [List.lookup_cons, h, hx, ih]

lemma lookup_map_const_ne (name n : String) (hne : n ≠ name) (v : File)
    (files : List (String × File)) :
    (files.map (fun p => if p.1 = name then (p.1, v) else p)).lookup n
      = files.lookup n := by
  induction files with
  | nil => rfl
  | cons p t ih =>
      rcases p with ⟨k, w⟩
      by_cases h : k = name
      · subst h
        have hx := beq_eq_false_iff_ne.mpr hne
        simp [List.lookup_cons, hx, ih]
      · by_cases h2 : n = k
        · subst h2
          simp [List.lookup_cons, h]
        · have hx : (n == k) = false := beq_eq_false_iff_ne.mpr h2
          simp [List.lookup_cons, h, hx, ih]

lemma keys_map_const (name : String) (v : File) (files : List (String × File)) :
    (files.map (fun p => if p.1 = name then (p.1, v) else p)).map Prod.fst
      = files.map Prod.fst := by
  induction files with
  | nil => rfl
  | cons p t ih =>
      by_cases h : p.1 = name <;> simp [h, ih]

/-- Claim C8: there is at most one handle per name for the run's lifetime:
Open inserts a fresh handle only when the name is absent from the registry
and the load succeeds; when a handle already exists, Open returns that
stored handle with its open flag set true — preserving its name, content and
registry position — and no operation (Open, Close, Read, Write) ever removes
or replaces a registry entry's key. -/
theorem claim8_registry_unique_handle (fs : DistributedFileSystem) (c : Int)
    (name : String) (disk : String → Option String) :
    (∀ f0, fs.Files.lookup name = some f0 →
        (OpenFile c name disk fs).1 = some (setOpen true f0) ∧
        (OpenFile c name disk fs).2.Files.lookup name = some (setOpen true f0) ∧
        (OpenFile c name disk fs).2.Files.map Prod.fst = fs.Files.map Prod.fst ∧
        ∀ n, n ≠ name → (OpenFile c name disk fs).2.Files.lookup n = fs.Files.lookup n) ∧
    (fs.Files.lookup name = none → ∀ content, disk name = some content →
        (OpenFile c name disk fs).1 = some ⟨name, true, content⟩ ∧
        (OpenFile c name disk fs).2.Files = fs.Files ++ [(name, ⟨name, true, content⟩)]) ∧
    (fs.Files.lookup name = none → disk name = none →
        OpenFile c name disk fs = (none, fs)) ∧
    (CloseFile name fs).Files.map Prod.fst = fs.Files.map Prod.fst ∧
    (ReadFile c name fs).Files = fs.Files ∧
    (∀ content ok, (WriteFile c name content ok fs).Files.map Prod.fst
        = fs.Files.map Prod.fst) := by
  refine ⟨?_, ?_, ?_, ?_, ReadFile_Files c name fs, ?_⟩
  · intro f0 h0
    refine ⟨by simp [OpenFile, h0], ?_, ?_, ?_⟩
    · simp only [OpenFile, h0]
      exact (lookup_map_const name (setOpen true f0) fs.Files).trans (by rw [h0]; rfl)
    · simp only [OpenFile, h0]
      exact keys_map_const name (setOpen true f0) fs.Files
    · intro n hn
      simp only [OpenFile, h0]
      exact lookup_map_const_ne name n hn (setOpen true f0) fs.Files
  · intro habs content hload
    constructor <;> simp [OpenFile, habs, hload]
  · intro habs hload
    simp [OpenFile, habs, hload]
  · show (fs.Files.map (fun p => if p.1 = name then (p.1, setOpen false p.2) else p)).map
        Prod.fst = fs.Files.map Prod.fst
    exact keys_map_update name (setOpen false) fs.Files
  · intro content ok
    rw [WriteFile_Files]
    exact keys_map_update name (setContent content) fs.Files

/-- Witness for C8: opening an existing name returns the stored handle with
the flag set; opening an absent name with a successful load inserts exactly
one new entry. -/
theorem claim8_registry_unique_handle_witness :
    (OpenFile 3 "f" (fun _ => none)
        ⟨[("f", ⟨"f", false, "z"⟩)], [], [], [], [], [], [], 0⟩).1
      = some ⟨"f", true, "z"⟩ ∧
    (OpenFile 3 "f" (fun _ => some "init")
        ⟨[], [], [], [], [], [], [], 0⟩).2.Files
      = [("f", ⟨"f", true, "init"⟩)] := by
  constructor
  · have h := (claim8_registry_unique_handle
      ⟨[("f", ⟨"f", false, "z"⟩)], [], [], [], [], [], [], 0⟩ 3 "f" (fun _ => none)).1
      ⟨"f", false, "z"⟩ (by decide)
    exact h.1.trans (by decide)
  · have h := (claim8_registry_unique_handle
      ⟨[], [], [], [], [], [], [], 0⟩ 3 "f" (fun _ => some "init")).2.1
      (by decide) "init" rfl
    exact h.2.trans (by decide)

/-! ### Gate-level step system for the reference scenario of `main` -/

/-- Gate-relevant projection of the system state: the client ids recorded in
the ledger, and the acknowledgment array. -/
structure GateState where
  requests : List Int
  ack : List Bool
deriving DecidableEq, Repr

/-- One interleaved event of the reference scenario of `main` with
`numClients = n`: an admission appends a ledger entry whose client id `main`
assigned (some id in 1..n); a spawned notify task runs `SendRequest` for
some ledger entry; a poll runs `ReceiveAcknowledge` against the current
ledger length. -/
inductive GateStep (n : Nat) : GateState → GateState → Prop
  | enqueue (c : Int) (s : GateState) (h1 : 1 ≤ c) (h2 : c ≤ (n : Int)) :
      GateStep n s ⟨s.requests ++ [c], s.ack⟩
  | send (c : Int) (s : GateState) (ack1 : List Bool) (hmem : c ∈ s.requests)
      (hsend : SendRequest c s.ack = some ack1) :
      GateStep n s ⟨s.requests, ack1⟩
  | recv (s : GateState) :
      GateStep n s ⟨s.requests, (ReceiveAcknowledge s.ack s.requests.length).2⟩

/-- Startup state of `main`: empty ledger, gate `make([]bool, numClients)`. -/
def GateInit (n : Nat) : GateState := ⟨[], List.replicate n false⟩

/-- States reachable from startup in the reference scenario. -/
def GateReachable (n : Nat) (s : GateState) : Prop :=
  Relation.ReflTransGen (GateStep n) (GateInit n) s

/-- Inductive invariant: all ledger client ids are at least 1, and slot 0 of
the gate (when it exists) is false. -/
def GateInv (s : GateState) : Prop :=
  (∀ c ∈ s.requests, 1 ≤ c) ∧ s.ack.getD 0 false = false

lemma gateInv_init (n : Nat) : GateInv (GateInit n) := by
  refine ⟨?_, ?_⟩
  · intro c hc
    simp [GateInit] at hc
  · cases n <;> simp [GateInit]

lemma allSlotsTrue_false_of_head_false (ack : List Bool) (hne : ack ≠ [])
    (h : ack.getD 0 false = false) : allSlotsTrue ack = false := by
  cases ack with
  | nil => cases hne rfl
  | cons b t =>
      simp only [List.getD_cons_zero] at h
      simp [allSlotsTrue, h]

lemma gateInv_step (n : Nat) (s s2 : GateState) (hstep : GateStep n s s2)
    (hinv : GateInv s) : GateInv s2 := by
  rcases hinv with ⟨hreq, hack⟩
  cases hstep with
  | enqueue c _ h1 h2 =>
      refine ⟨?_, hack⟩
      intro x hx
      rcases List.mem_append.mp hx with hx | hx
      · exact hreq x hx
      · have : x = c := by simpa using hx
        omega
  | send c _ ack1 hmem hsend =>
      refine ⟨hreq, ?_⟩
      have h1 : 1 ≤ c := hreq c hmem
      unfold SendRequest at hsend
      by_cases hlt : c < (s.ack.length : Int)
      · rw [if_pos hlt, if_pos (by omega)] at hsend
        have hset := Option.some.inj hsend
        rw [← hset]
        have hne0 : c.toNat ≠ 0 := by omega
        simp only [List.getD_eq_getElem?_getD, List.getElem?_set_ne hne0]
        simpa [List.getD_eq_getElem?_getD] using hack
      · rw [if_neg hlt] at hsend
        rw [← Option.some.inj hsend]
        exact hack
  | recv _ =>
      refine ⟨hreq, ?_⟩
      show (ReceiveAcknowledge s.ack s.requests.length).2.getD 0 false = false
      unfold ReceiveAcknowledge
      by_cases hall : allSlotsTrue s.ack = true
      · rw [if_pos hall]
        cases s.requests.length <;> simp
      · rw [if_neg hall]
        exact hack

lemma gateInv_reachable (n : Nat) (s : GateState) (h : GateReachable n s) :
    GateInv s := by
  induction h with
  | refl => exact gateInv_init n
  | tail hab hbc ih => exact gateInv_step n _ _ hbc ih

/-- Claim C10: in the reference scenario (`main` assigns client ids 1..n
while the gate starts sized n), no reachable `SendRequest` ever sets gate
slot 0; hence in every reachable state whose gate array is non-empty, slot 0
is false and `ReceiveAcknowledge` never takes its reset branch after
startup. -/
theorem claim10_gate_slot_zero (n : Nat) (s : GateState) (h : GateReachable n s) :
    s.ack.getD 0 false = false ∧
    (∀ c ack1, c ∈ s.requests → SendRequest c s.ack = some ack1 →
        ack1.getD 0 false = false) ∧
    (s.ack ≠ [] → ∀ k, (ReceiveAcknowledge s.ack k).1 = false) := by
  have hinv := gateInv_reachable n s h
  refine ⟨hinv.2, ?_, ?_⟩
  · intro c ack1 hmem hsend
    exact (gateInv_step n s ⟨s.requests, ack1⟩ (GateStep.send c s ack1 hmem hsend) hinv).2
  · intro hne k
    have hall := allSlotsTrue_false_of_head_false s.ack hne hinv.2
    simp [ReceiveAcknowledge, hall]

/-- Witness for C10 along the concrete reachable run: two clients, client 1
admitted, then its notify task fires (setting slot 1); slot 0 is still false
and the gate never reports all-acknowledged. -/
theorem claim10_gate_slot_zero_witness :
    ([false, true].getD 0 false = false) ∧
    ((ReceiveAcknowledge [false, true] 7).1 = false) := by
  have hstep1 : GateStep 2 (GateInit 2) ⟨[(1 : Int)], [false, false]⟩ :=
    GateStep.enqueue 1 (GateInit 2) (by decide) (by decide)
  have hstep2 : GateStep 2 ⟨[(1 : Int)], [false, false]⟩ ⟨[(1 : Int)], [false, true]⟩ :=
    GateStep.send 1 ⟨[(1 : Int)], [false, false]⟩ [false, true] (by decide) (by decide)
  have hreach : GateReachable 2 ⟨[(1 : Int)], [false, true]⟩ :=
    Relation.ReflTransGen.tail (Relation.ReflTransGen.single hstep1) hstep2
  have h := claim10_gate_slot_zero 2 ⟨[(1 : Int)], [false, true]⟩ hreach
  exact ⟨h.1, h.2.2 (by decide) 7⟩

end RA
